import Mathlib

/-!
Shallow embedding of the `input-deno` interactive input helper
(`src/index.ts`, class `InputLoop`), together with models of its two
missing support modules (`Printer` from spec section 4.1 and `History`
from spec section 4.2, whose source files are not in the repository
snapshot).

Modelling conventions:
* JavaScript `string | number` values are `JSValue`; `undefined` is
  `Option.none`.
* JS truthiness is modelled per type: a string is truthy iff nonempty,
  a number iff nonzero, `undefined` is falsy, booleans are themselves.
* `String(n)` on a JS number is `Nat.repr` / `Int.repr`.
* `s.replace('\n', '')` (string pattern) removes the FIRST occurrence.
* Standard input is a list of raw read results: each element is the
  `Option String` produced by one `Deno.stdin.read` call (`none` = end
  of stream, `some s` = the decoded chunk, possibly empty for a
  zero-byte read); an exhausted list also reads as end of stream.
* Standard output is the list of strings written, in order.
* A rejected promise is `Except.error ()`; a resolved one `Except.ok`.
-/

namespace InputDeno

/-- A JavaScript `string | number` value. -/
inductive JSValue where
  | str (s : String)
  | num (n : Int)
deriving DecidableEq

/-- JS truthiness of a `string | number` value:
strings are truthy iff nonempty, numbers iff nonzero. -/
def JSValue.truthy : JSValue → Bool
  | .str s => !s.isEmpty
  | .num n => n != 0

/-- The `Preferences` bag destructured by `choose` in `src/index.ts`
(fields as listed in the destructuring; every field optional). -/
structure Preferences where
  choice : Option JSValue := none
  lastOptionClose : Option Bool := none
  displayInline : Option Bool := none
  inlineSpacing : Option Nat := none
  inlineSeparator : Option String := none
  indexStyle : Option (List String) := none
  dividerTop : Option Bool := none
  dividerBottom : Option Bool := none
  dividerChar : Option String := none
  dividerLength : Option Nat := none
  dividerPadding : Option Bool := none
deriving DecidableEq

/-- Modelled from the spec: the prompt kinds of the missing `types.ts`
(`ACTIONS` enum used by `src/index.ts`). -/
inductive ACTIONS where
  | CHOOSE
  | QUESTION
deriving DecidableEq

/-- The argument stored with a history record: an option list for a
Choose prompt, the question text for a Question prompt. -/
inductive HistArg where
  | opts (l : List String)
  | text (s : String)
deriving DecidableEq

/-- Modelled from the spec: the record stored by the missing
`history.ts` (`save(argument, kind, lastOptionClose?, includeNewline?)`
overwrites the single stored record; `retrieve()` returns it).
Optional arguments not passed at a save site stay `none`. -/
structure HistoryRecord where
  argument : HistArg
  action : ACTIONS
  lastOptionClose : Option Bool := none
  includeNewline : Option Bool := none
deriving DecidableEq

/-- The observable state of an `InputLoop` object plus its I/O
environment: the `done` flag, the single-record history (`none` until
the first save), everything written to stdout so far, and the pending
raw stdin read results. -/
structure LoopState where
  done : Bool := false
  history : Option HistoryRecord := none
  output : List String := []
  stdin : List (Option String) := []
deriving DecidableEq

/-- `coerceChoice` from `src/index.ts`: numbers are rendered with
`String(value)`, strings pass through. -/
def coerceChoice : JSValue → String
  | .num n => Int.repr n
  | .str s => s

/-- Remove the first occurrence of `c` from a character list — the
effect of JS `String.prototype.replace` with a single-character string
pattern and empty replacement. -/
def replaceFirst (c : Char) : List Char → List Char
  | [] => []
  | x :: xs => if x = c then xs else x :: replaceFirst c xs

/-- `cleanInput` from `src/index.ts`:
`value?.replace('\n', '').replace('\r', '') ?? ''` — remove the first
line feed, then the first carriage return; `undefined` becomes `""`. -/
def cleanInput : Option String → String
  | some s => ⟨replaceFirst '\r' (replaceFirst '\n' s.data)⟩
  | none => ""

/-- Modelled from the spec: `Printer.print(text, appendNewline)` writes
the text, optionally followed by a line break (an omitted/undefined
flag writes no break). -/
def printOut (out : List String) (text : String) (appendNewline : Bool) : List String :=
  out ++ [if appendNewline then text ++ "\n" else text]

/-- Modelled from the spec: `Printer.newline()` writes one line break. -/
def newlineOut (out : List String) : List String :=
  out ++ ["\n"]

/-- `c` repeated `n` times, as in JS `c.repeat(n)`. -/
def repeatStr (c : String) (n : Nat) : String :=
  String.join (List.replicate n c)

/-- Modelled from the spec: `Printer.divider(length, char)` writes a
repeated-character line, defaulting to length 30 and character `-`. -/
def dividerOut (out : List String) (len : Option Nat) (ch : Option String) : List String :=
  out ++ [repeatStr (ch.getD "-") (len.getD 30) ++ "\n"]

/-- JS `x || undefined` on an optional number: 0 is falsy. -/
def orUndefinedNat : Option Nat → Option Nat
  | some 0 => none
  | x => x

/-- JS `x || undefined` on an optional string: `""` is falsy. -/
def orUndefinedStr : Option String → Option String
  | some s => if s.isEmpty then none else some s
  | none => none

/-- `read` from `src/index.ts`: one `Deno.stdin.read`; a truthy byte
count resolves with the cleaned decoded chunk, a zero or null count
rejects. -/
def readOp (st : LoopState) : Except Unit String × LoopState :=
  match st.stdin with
  | [] => (.error (), st)
  | none :: rest => (.error (), { st with stdin := rest })
  | some s :: rest =>
      if s.isEmpty then (.error (), { st with stdin := rest })
      else (.ok (cleanInput (some s)), { st with stdin := rest })

/-- `close` from `src/index.ts`: sets `done` to `true`. -/
def close (st : LoopState) : LoopState :=
  { st with done := true }

/-- The rendering phase of `choose` (`src/index.ts`): leading blank
line, optional top divider and padding, the option lines (inline with a
separator, or one per line), optional bottom divider. Only writes to
stdout. -/
def renderChoose (st : LoopState) (options : List String) (p : Preferences) : LoopState :=
  let indexStyleLeft := match p.indexStyle with
    | some l => l.getD 0 "undefined"
    | none => "["
  let indexStyleRight := match p.indexStyle with
    | some l => l.getD 1 "undefined"
    | none => "]"
  let out1 := newlineOut st.output
  let out2 := if p.dividerTop.getD false then
      dividerOut out1 (orUndefinedNat p.dividerLength) (orUndefinedStr p.dividerChar)
    else out1
  let out3 := if p.dividerPadding.getD false then newlineOut out2 else out2
  let separator := match p.inlineSeparator with
    | some s => if s.isEmpty then repeatStr " " ((orUndefinedNat p.inlineSpacing).getD 2)
        else " " ++ s ++ " "
    | none => repeatStr " " ((orUndefinedNat p.inlineSpacing).getD 2)
  let out4 := (options.enum).foldl (fun acc pr =>
      if p.displayInline.getD false then
        printOut acc (indexStyleLeft ++ Nat.repr pr.1 ++ indexStyleRight ++ " " ++ pr.2
          ++ separator) false
      else
        printOut acc (indexStyleLeft ++ Nat.repr pr.1 ++ indexStyleRight ++ " " ++ pr.2) true)
    out3
  let out5 := if p.dividerBottom.getD false then
      let a := newlineOut out4
      let b := if p.dividerPadding.getD false then newlineOut a else a
      dividerOut b (orUndefinedNat p.dividerLength) (orUndefinedStr p.dividerChar)
    else out4
  { st with output := out5 }

/-- The tail of `choose` after the answer string is known: save the
history record, close the loop if `lastOptionClose` is truthy and the
answer equals `String(options.length - 1)`, and build the boolean list
`options.map((_option, index) => result === String(index))` (the option
value itself is unused by the callback). -/
def finishChoose (st : LoopState) (options : List String) (p : Preferences)
    (result : String) : Except Unit (List Bool) × LoopState :=
  let entry : HistoryRecord :=
    { argument := .opts options, action := .CHOOSE,
      lastOptionClose := some (p.lastOptionClose.getD false) }
  let st1 := { st with history := some entry }
  let st2 := if p.lastOptionClose.getD false
      && (result == Int.repr ((options.length : Int) - 1)) then close st1 else st1
  (.ok ((List.range options.length).map fun index => result == Nat.repr index), st2)

/-- `choose` from `src/index.ts`: render the menu, then answer from
`preferences.choice` when it is defined (cleaned coerced form, no read)
or from `read()` otherwise; a rejected read propagates. -/
def choose (st : LoopState) (options : List String) (p : Preferences := {}) :
    Except Unit (List Bool) × LoopState :=
  match p.choice with
  | some c =>
      finishChoose (renderChoose st options p) options p (cleanInput (some (coerceChoice c)))
  | none =>
      match readOp (renderChoose st options p) with
      | (.ok result, st1) => finishChoose st1 options p result
      | (.error e, st1) => (.error e, st1)

/-- The history record saved by `question`:
`save(question, ACTIONS.QUESTION, undefined, includeNewline ?? true)`. -/
def questionEntry (q : String) (includeNewline : Option Bool) : HistoryRecord :=
  { argument := .text q, action := .QUESTION,
    includeNewline := some (includeNewline.getD true) }

/-- The state of the loop object after `question` has printed the
question and saved its history record. -/
def questionState (st : LoopState) (q : String) (includeNewline : Option Bool) : LoopState :=
  { st with
    output := printOut st.output q (includeNewline.getD true),
    history := some (questionEntry q includeNewline) }

/-- `question` from `src/index.ts`: print the question (newline flag
defaulting to true), save the history record, then resolve with the
cleaned coerced `value` when `value` is truthy, else with `read()`. -/
def question (st : LoopState) (q : String) (includeNewline : Option Bool := none)
    (value : Option JSValue := none) : Except Unit String × LoopState :=
  match value with
  | some v =>
      if v.truthy then
        (.ok (cleanInput (some (coerceChoice v))), questionState st q includeNewline)
      else readOp (questionState st q includeNewline)
  | none => readOp (questionState st q includeNewline)

/-- The result of `repeat`: a replayed choose, a replayed question, or
nothing (`undefined`) when no prompt was ever recorded. -/
abbrev RepeatResult := Option (Except Unit (List Bool) ⊕ Except Unit String)

/-- `repeat` from `src/index.ts`: replay the stored record through
`choose` or `question`, passing `value` as the auto-supplied answer;
return `undefined` when the history is empty. (A CHOOSE record always
stores an option list and a QUESTION record a text, so the mismatched
combinations are unreachable from the public API.) -/
def repeatOp (st : LoopState) (value : Option JSValue := none) :
    RepeatResult × LoopState :=
  match st.history with
  | none => (none, st)
  | some rec =>
      match rec.action, rec.argument with
      | .CHOOSE, .opts l =>
          let r := choose st l { lastOptionClose := rec.lastOptionClose, choice := value }
          (some (.inl r.1), r.2)
      | .QUESTION, .text s =>
          let r := question st s rec.includeNewline value
          (some (.inr r.1), r.2)
      | .CHOOSE, .text _ => (none, st)
      | .QUESTION, .opts _ => (none, st)


deriving instance DecidableEq for Except

/-- Follows the SPEC's words for `read` (sections 4.3 and 6): the
delivered text with its trailing carriage-return/line-feed characters
stripped and the rest unchanged. Used only to compare the spec's
description of `read` with the code's `cleanInput`. -/
def stripTrailingTerminators (s : String) : String :=
  ⟨(s.data.reverse.dropWhile fun c => c = '\n' || c = '\r').reverse⟩


/-- Decimal digit characters of `n`, most significant first: a
functional specification of the fuel-based core `Nat.toDigits 10`. -/
def decChars (n : Nat) : List Char :=
  if _h : n < 10 then [Nat.digitChar n]
  else decChars (n / 10) ++ [Nat.digitChar (n % 10)]
decreasing_by exact Nat.div_lt_self (by omega) (by omega)

theorem decChars_lt {n : Nat} (h : n < 10) : decChars n = [Nat.digitChar n] := by
  rw [decChars, dif_pos h]

theorem decChars_ge {n : Nat} (h : ¬ n < 10) :
    decChars n = decChars (n / 10) ++ [Nat.digitChar (n % 10)] := by
  conv_lhs => rw [decChars]
  rw [dif_neg h]

theorem decChars_ne_nil (n : Nat) : decChars n ≠ [] := by
  by_cases h : n < 10
  · rw [decChars_lt h]; simp
  · rw [decChars_ge h]; simp

theorem toDigitsCore_eq_decChars :
    ∀ (fuel n : Nat) (ds : List Char), n < fuel →
      Nat.toDigitsCore 10 fuel n ds = decChars n ++ ds := by
  intro fuel
  induction fuel with
  | zero => intro n ds h; omega
  | succ f ih =>
    intro n ds h
    simp only [Nat.toDigitsCore]
    by_cases h0 : n / 10 = 0
    · have hn : n < 10 := by omega
      have hmod : n % 10 = n := Nat.mod_eq_of_lt hn
      rw [if_pos h0, decChars_lt hn, hmod]
      rfl
    · rw [if_neg h0]
      rw [ih (n / 10) _ (by omega)]
      rw [decChars_ge (by omega : ¬ n < 10)]
      simp

theorem digitChar_injOn :
    ∀ a, a < 10 → ∀ b, b < 10 → Nat.digitChar a = Nat.digitChar b → a = b := by
  decide

theorem decChars_inj : ∀ m n : Nat, decChars m = decChars n → m = n := by
  intro m
  induction m using Nat.strong_induction_on with
  | _ m ih =>
    intro n h
    by_cases hm : m < 10 <;> by_cases hn : n < 10
    · rw [decChars_lt hm, decChars_lt hn] at h
      exact digitChar_injOn m hm n hn (List.cons.inj h).1
    · exfalso
      rw [decChars_lt hm, decChars_ge hn] at h
      have hlen := congrArg List.length h
      simp only [List.length_cons, List.length_nil, List.length_append] at hlen
      exact decChars_ne_nil (n / 10) (List.length_eq_zero.mp (by omega))
    · exfalso
      rw [decChars_ge hm, decChars_lt hn] at h
      have hlen := congrArg List.length h
      simp only [List.length_cons, List.length_nil, List.length_append] at hlen
      exact decChars_ne_nil (m / 10) (List.length_eq_zero.mp (by omega))
    · rw [decChars_ge hm, decChars_ge hn] at h
      obtain ⟨h1, h2⟩ := List.append_inj' h (by simp)
      have hdiv : m / 10 = n / 10 := ih (m / 10) (Nat.div_lt_self (by omega) (by omega)) _ h1
      have hmod : m % 10 = n % 10 :=
        digitChar_injOn _ (Nat.mod_lt _ (by omega)) _ (Nat.mod_lt _ (by omega))
          (List.cons.inj h2).1
      omega

theorem repr_eq_decChars (n : Nat) : Nat.repr n = (decChars n).asString := by
  unfold Nat.repr Nat.toDigits
  rw [toDigitsCore_eq_decChars (n + 1) n [] (Nat.lt_succ_self n), List.append_nil]

theorem natRepr_inj {m n : Nat} (h : Nat.repr m = Nat.repr n) : m = n := by
  rw [repr_eq_decChars, repr_eq_decChars] at h
  exact decChars_inj m n (congrArg String.data h)

theorem digitChar_not_ctrl :
    ∀ a, a < 10 → Nat.digitChar a ≠ '\n' ∧ Nat.digitChar a ≠ '\r' := by
  decide

theorem decChars_not_ctrl (n : Nat) :
    ∀ c ∈ decChars n, c ≠ '\n' ∧ c ≠ '\r' := by
  induction n using Nat.strong_induction_on with
  | _ n ih =>
    intro c hc
    by_cases hn : n < 10
    · rw [decChars_lt hn] at hc
      simp at hc
      subst hc
      exact digitChar_not_ctrl n hn
    · rw [decChars_ge hn] at hc
      rcases List.mem_append.mp hc with h1 | h2
      · exact ih (n / 10) (Nat.div_lt_self (by omega) (by omega)) c h1
      · simp at h2
        subst h2
        exact digitChar_not_ctrl _ (Nat.mod_lt _ (by omega))

theorem repr_not_ctrl (n : Nat) :
    '\n' ∉ (Nat.repr n).data ∧ '\r' ∉ (Nat.repr n).data := by
  rw [repr_eq_decChars]
  refine ⟨fun h => ?_, fun h => ?_⟩
  · exact (decChars_not_ctrl n _ h).1 rfl
  · exact (decChars_not_ctrl n _ h).2 rfl

theorem replaceFirst_of_not_mem {c : Char} : ∀ {l : List Char}, c ∉ l → replaceFirst c l = l
  | [], _ => rfl
  | x :: xs, h => by
      have hx : ¬ x = c := fun hxc => h (hxc ▸ List.mem_cons_self x xs)
      have hxs : c ∉ xs := fun hm => h (List.mem_cons_of_mem x hm)
      simp only [replaceFirst, if_neg hx, replaceFirst_of_not_mem hxs]

theorem cleanInput_of_not_mem {s : String} (hn : '\n' ∉ s.data) (hr : '\r' ∉ s.data) :
    cleanInput (some s) = s := by
  simp only [cleanInput, replaceFirst_of_not_mem hn, replaceFirst_of_not_mem hr]

theorem cleanInput_natRepr (n : Nat) : cleanInput (some (Nat.repr n)) = Nat.repr n :=
  cleanInput_of_not_mem (repr_not_ctrl n).1 (repr_not_ctrl n).2

theorem intRepr_ofNat (n : Nat) : Int.repr (Int.ofNat n) = Nat.repr n := rfl

theorem renderChoose_frame (st : LoopState) (options : List String) (p : Preferences) :
    (renderChoose st options p).done = st.done ∧
    (renderChoose st options p).history = st.history ∧
    (renderChoose st options p).stdin = st.stdin :=
  ⟨rfl, rfl, rfl⟩

theorem readOp_frame (st : LoopState) :
    (readOp st).2.done = st.done ∧
    (readOp st).2.history = st.history ∧
    (readOp st).2.output = st.output ∧
    (readOp st).2.stdin = st.stdin.tail := by
  obtain ⟨d, hh, o, si⟩ := st
  rcases si with _ | ⟨_ | s, rest⟩
  · exact ⟨rfl, rfl, rfl, rfl⟩
  · exact ⟨rfl, rfl, rfl, rfl⟩
  · by_cases h : s.isEmpty <;> simp [readOp, h]

theorem finishChoose_fst (st : LoopState) (options : List String) (p : Preferences)
    (r : String) :
    (finishChoose st options p r).1 =
      .ok ((List.range options.length).map fun index => r == Nat.repr index) := rfl

theorem finishChoose_history (st : LoopState) (options : List String) (p : Preferences)
    (r : String) :
    (finishChoose st options p r).2.history =
      some { argument := .opts options, action := .CHOOSE,
             lastOptionClose := some (p.lastOptionClose.getD false) } := by
  unfold finishChoose close
  by_cases h : p.lastOptionClose.getD false && (r == Int.repr ((options.length : Int) - 1)) <;>
    simp [h]

theorem finishChoose_stdin (st : LoopState) (options : List String) (p : Preferences)
    (r : String) : (finishChoose st options p r).2.stdin = st.stdin := by
  unfold finishChoose close
  by_cases h : p.lastOptionClose.getD false && (r == Int.repr ((options.length : Int) - 1)) <;>
    simp [h]

theorem finishChoose_done (st : LoopState) (options : List String) (p : Preferences)
    (r : String) :
    (finishChoose st options p r).2.done =
      (if p.lastOptionClose.getD false && (r == Int.repr ((options.length : Int) - 1))
        then true else st.done) := by
  unfold finishChoose close
  by_cases h : p.lastOptionClose.getD false && (r == Int.repr ((options.length : Int) - 1)) <;>
    simp [h]

theorem choose_of_choice {st : LoopState} {options : List String} {p : Preferences}
    {c : JSValue} (h : p.choice = some c) :
    choose st options p =
      finishChoose (renderChoose st options p) options p
        (cleanInput (some (coerceChoice c))) := by
  unfold choose
  rw [h]

theorem string_beq_eq_decide (a b : String) : (a == b) = decide (a = b) := by
  by_cases h : a = b <;> simp [h]

theorem natRepr_beq (i j : Nat) : (Nat.repr i == Nat.repr j) = decide (i = j) := by
  by_cases h : i = j
  · subst h; simp
  · have hne : Nat.repr i ≠ Nat.repr j := fun he => h (natRepr_inj he)
    simp [h, beq_eq_false_iff_ne.mpr hne]

theorem intRepr_pred_length {options : List String} (h : options ≠ []) :
    Int.repr ((options.length : Int) - 1) = Nat.repr (options.length - 1) := by
  have hlen : options.length ≠ 0 := fun h0 => h (List.length_eq_zero.mp h0)
  have h2 : ((options.length : Int) - 1) = ((options.length - 1 : Nat) : Int) := by omega
  rw [h2]
  rfl

theorem choose_shape {st : LoopState} {options : List String} {p : Preferences}
    {l : List Bool} (h : (choose st options p).1 = .ok l) :
    ∃ r : String, l = (List.range options.length).map fun index => r == Nat.repr index := by
  unfold choose at h
  cases hc : p.choice with
  | some c =>
      rw [hc] at h
      have h2 : (finishChoose (renderChoose st options p) options p
          (cleanInput (some (coerceChoice c)))).1 = Except.ok l := h
      rw [finishChoose_fst] at h2
      exact ⟨_, (Except.ok.inj h2).symm⟩
  | none =>
      rw [hc] at h
      rcases hr : readOp (renderChoose st options p) with ⟨res, st1⟩
      rw [hr] at h
      cases res with
      | ok r =>
          have h2 : (finishChoose st1 options p r).1 = Except.ok l := h
          rw [finishChoose_fst] at h2
          exact ⟨_, (Except.ok.inj h2).symm⟩
      | error e =>
          have h2 : (Except.error e : Except Unit (List Bool)) = Except.ok l := h
          exact absurd h2 (by simp)

theorem choose_history_of_ok {st : LoopState} {options : List String} {p : Preferences}
    {l : List Bool} (h : (choose st options p).1 = .ok l) :
    (choose st options p).2.history =
      some { argument := .opts options, action := .CHOOSE,
             lastOptionClose := some (p.lastOptionClose.getD false) } := by
  unfold choose at h ⊢
  cases hc : p.choice with
  | some c =>
      exact finishChoose_history _ _ _ _
  | none =>
      rw [hc] at h
      rcases hr : readOp (renderChoose st options p) with ⟨res, st1⟩
      rw [hr] at h
      cases res with
      | ok r => exact finishChoose_history _ _ _ _
      | error e =>
          have h2 : (Except.error e : Except Unit (List Bool)) = Except.ok l := h
          exact absurd h2 (by simp)

theorem choose_stdin_some {st : LoopState} {options : List String} {p : Preferences}
    {c : JSValue} (hc : p.choice = some c) :
    (choose st options p).2.stdin = st.stdin := by
  rw [choose_of_choice hc, finishChoose_stdin]
  exact (renderChoose_frame st options p).2.2

theorem choose_stdin_none {st : LoopState} {options : List String} {p : Preferences}
    (hc : p.choice = none) :
    (choose st options p).2.stdin = st.stdin.tail := by
  unfold choose
  rw [hc]
  rcases hr : readOp (renderChoose st options p) with ⟨res, st1⟩
  have hst1 : st1.stdin = st.stdin.tail := by
    have hf := (readOp_frame (renderChoose st options p)).2.2.2
    rw [hr] at hf
    have hf2 : st1.stdin = (renderChoose st options p).stdin.tail := hf
    rw [hf2, (renderChoose_frame st options p).2.2]
  cases res with
  | ok r =>
      show (finishChoose st1 options p r).2.stdin = st.stdin.tail
      rw [finishChoose_stdin]
      exact hst1
  | error e => exact hst1

theorem choose_done_mono {st : LoopState} {options : List String} {p : Preferences}
    (h : st.done = true) : (choose st options p).2.done = true := by
  unfold choose
  cases hc : p.choice with
  | some c =>
      rw [finishChoose_done]
      split
      · rfl
      · rw [(renderChoose_frame st options p).1]; exact h
  | none =>
      rcases hr : readOp (renderChoose st options p) with ⟨res, st1⟩
      have hst1 : st1.done = true := by
        have hf := (readOp_frame (renderChoose st options p)).1
        rw [hr] at hf
        have hf2 : st1.done = (renderChoose st options p).done := hf
        rw [hf2, (renderChoose_frame st options p).1]
        exact h
      cases res with
      | ok r =>
          show (finishChoose st1 options p r).2.done = true
          rw [finishChoose_done]
          split
          · rfl
          · exact hst1
      | error e => exact hst1
theorem questionState_frame (st : LoopState) (q : String) (inl : Option Bool) :
    (questionState st q inl).done = st.done ∧
    (questionState st q inl).stdin = st.stdin ∧
    (questionState st q inl).history = some (questionEntry q inl) :=
  ⟨rfl, rfl, rfl⟩

theorem question_truthy {st : LoopState} {q : String} {inl : Option Bool} {v : JSValue}
    (hv : v.truthy = true) :
    question st q inl (some v) =
      (.ok (cleanInput (some (coerceChoice v))), questionState st q inl) := by
  have heq : question st q inl (some v) =
      if v.truthy = true then
        (Except.ok (cleanInput (some (coerceChoice v))), questionState st q inl)
      else readOp (questionState st q inl) := rfl
  rw [heq, if_pos hv]

theorem question_falsy {st : LoopState} {q : String} {inl : Option Bool} {v : JSValue}
    (hv : v.truthy = false) :
    question st q inl (some v) = readOp (questionState st q inl) := by
  have heq : question st q inl (some v) =
      if v.truthy = true then
        (Except.ok (cleanInput (some (coerceChoice v))), questionState st q inl)
      else readOp (questionState st q inl) := rfl
  rw [heq, if_neg (by simp [hv])]

theorem question_none (st : LoopState) (q : String) (inl : Option Bool) :
    question st q inl none = readOp (questionState st q inl) := rfl

theorem question_history (st : LoopState) (q : String) (inl : Option Bool)
    (value : Option JSValue) :
    (question st q inl value).2.history = some (questionEntry q inl) := by
  have hread : (readOp (questionState st q inl)).2.history = some (questionEntry q inl) :=
    (readOp_frame (questionState st q inl)).2.1.trans (questionState_frame st q inl).2.2
  cases value with
  | none => exact hread
  | some v =>
      by_cases hv : v.truthy = true
      · rw [question_truthy hv]
        rfl
      · rw [question_falsy (Bool.not_eq_true _ ▸ hv)]
        exact hread

theorem question_done (st : LoopState) (q : String) (inl : Option Bool)
    (value : Option JSValue) :
    (question st q inl value).2.done = st.done := by
  have hread : (readOp (questionState st q inl)).2.done = st.done :=
    (readOp_frame (questionState st q inl)).1.trans (questionState_frame st q inl).1
  cases value with
  | none => exact hread
  | some v =>
      by_cases hv : v.truthy = true
      · rw [question_truthy hv]
        rfl
      · rw [question_falsy (Bool.not_eq_true _ ▸ hv)]
        exact hread

theorem question_stdin_truthy {st : LoopState} {q : String} {inl : Option Bool} {v : JSValue}
    (hv : v.truthy = true) :
    (question st q inl (some v)).2.stdin = st.stdin := by
  rw [question_truthy hv]
  rfl

theorem repeat_done_mono {st : LoopState} {v : Option JSValue} (h : st.done = true) :
    (repeatOp st v).2.done = true := by
  unfold repeatOp
  cases hh : st.history with
  | none => exact h
  | some entry =>
      rcases entry with ⟨arg, act, loc, inl⟩
      cases act <;> cases arg
      · exact choose_done_mono h
      · exact h
      · exact h
      · exact (question_done _ _ _ _).trans h

theorem replaceFirst_append_not_mem (c : Char) :
    ∀ (l1 l2 : List Char), c ∉ l1 →
      replaceFirst c (l1 ++ l2) = l1 ++ replaceFirst c l2
  | [], _, _ => rfl
  | x :: xs, l2, h => by
      have hx : ¬ x = c := fun hxc => h (hxc ▸ List.mem_cons_self x xs)
      have hxs : c ∉ xs := fun hm => h (List.mem_cons_of_mem x hm)
      simp only [List.cons_append, replaceFirst, if_neg hx, List.append_eq,
        replaceFirst_append_not_mem c xs l2 hxs]

theorem readOp_error (st : LoopState)
    (hf : ∀ s rest, st.stdin = some s :: rest → s = "") :
    (readOp st).1 = .error () := by
  obtain ⟨d, hh, o, si⟩ := st
  rcases si with _ | ⟨c, rest⟩
  · rfl
  · rcases c with _ | s
    · rfl
    · have hs : s = "" := hf s rest rfl
      subst hs
      rfl

/-- C6: `read()` rejects exactly when the underlying standard-input
read yields no data (closed stream, exhausted input, or a zero-byte
read); whenever a nonempty chunk arrives it resolves with the cleaned
chunk. -/
theorem claim_C6 (st : LoopState) :
    ((∃ r, (readOp st).1 = .ok r) ↔ ∃ s rest, st.stdin = some s :: rest ∧ s ≠ "") ∧
    (∀ s rest, st.stdin = some s :: rest → s ≠ "" →
      (readOp st).1 = .ok (cleanInput (some s))) := by
  obtain ⟨d, hh, o, si⟩ := st
  constructor
  · rcases si with _ | ⟨c, rest⟩
    · simp [readOp]
    · rcases c with _ | s
      · simp [readOp]
      · by_cases hs : s.isEmpty = true
        · have hs0 : s = "" := (String.isEmpty_iff s).mp hs
          subst hs0
          simp [readOp, hs]
        · have hs0 : s ≠ "" := fun he => hs (by rw [he]; rfl)
          simp [readOp, hs, hs0]
  · intro s rest2 heq hne
    have hF : ¬ s.isEmpty = true := fun h' => hne ((String.isEmpty_iff s).mp h')
    subst heq
    simp [readOp, hF]

/-- C7: the `done` flag is monotonic across the public API — `read`
never changes it, `choose`, `question` and `repeat` keep it `true` once
it is `true` — and `close` always sets it to `true` and is idempotent,
so `close()` twice leaves `done` true. -/
theorem claim_C7 (st : LoopState) :
    (readOp st).2.done = st.done ∧
    (close st).done = true ∧
    close (close st) = close st ∧
    (st.done = true →
      (∀ options p, (choose st options p).2.done = true) ∧
      (∀ q inl v, (question st q inl v).2.done = true) ∧
      (∀ v, (repeatOp st v).2.done = true)) :=
  ⟨(readOp_frame st).1, rfl, rfl, fun h =>
    ⟨fun _ _ => choose_done_mono h,
     fun q inl v => (question_done _ q inl v).trans h,
     fun _ => repeat_done_mono h⟩⟩

/-- Witness for C7 on a concrete closed state with `done = true`. -/
theorem claim_C7_witness :
    (close ({ done := true } : LoopState)).done = true ∧
    (choose ({ done := true } : LoopState) ["A"] {}).2.done = true ∧
    (close (close ({ done := true } : LoopState))).done = true := by
  have h := claim_C7 { done := true, history := none, output := [], stdin := [] }
  exact ⟨h.2.1, (h.2.2.2 rfl).1 ["A"] {}, by rw [h.2.2.1]; exact h.2.1⟩

/-- C9: when `choose` has no auto-choice and the interactive read
fails, the rejection propagates and the object state is untouched: the
history record is not overwritten and `done` is not modified. -/
theorem claim_C9 (st : LoopState) (options : List String) (p : Preferences)
    (hc : p.choice = none)
    (hf : ∀ s rest, st.stdin = some s :: rest → s = "") :
    (choose st options p).1 = .error () ∧
    (choose st options p).2.done = st.done ∧
    (choose st options p).2.history = st.history := by
  have hread : (readOp (renderChoose st options p)).1 = .error () :=
    readOp_error (renderChoose st options p) hf
  unfold choose
  rw [hc]
  rcases hr : readOp (renderChoose st options p) with ⟨res, st1⟩
  rw [hr] at hread
  have hres : res = .error () := hread
  subst hres
  have hdone : st1.done = st.done := by
    have h1 := (readOp_frame (renderChoose st options p)).1
    rw [hr] at h1
    exact (h1 : st1.done = _).trans (renderChoose_frame st options p).1
  have hhist : st1.history = st.history := by
    have h1 := (readOp_frame (renderChoose st options p)).2.1
    rw [hr] at h1
    exact (h1 : st1.history = _).trans (renderChoose_frame st options p).2.1
  exact ⟨rfl, hdone, hhist⟩

/-- Witness for C9 on an exhausted input stream. -/
theorem claim_C9_witness :
    (choose ({ stdin := [] } : LoopState) ["A"] {}).1 = .error () ∧
    (choose ({ stdin := [] } : LoopState) ["A"] {}).2.done = false ∧
    (choose ({ stdin := [] } : LoopState) ["A"] {}).2.history = none := by
  have h := claim_C9 { done := false, history := none, output := [], stdin := [] }
    ["A"] {} rfl (fun s rest heq => by cases heq)
  exact ⟨h.1, h.2.1, h.2.2⟩

/-- C10: a resolved `choose` never marks two distinct positions: the
returned boolean list has at most one `true` entry. -/
theorem claim_C10 {st : LoopState} {options : List String} {p : Preferences}
    {l : List Bool} (h : (choose st options p).1 = .ok l) :
    ∀ i j : Nat, (hi : i < l.length) → (hj : j < l.length) →
      l.get ⟨i, hi⟩ = true → l.get ⟨j, hj⟩ = true → i = j := by
  obtain ⟨r, hl⟩ := choose_shape h
  subst hl
  intro i j hi hj hti htj
  rw [List.get_eq_getElem] at hti htj
  simp only [List.getElem_map, List.getElem_range] at hti htj
  have h1 : r = Nat.repr i := eq_of_beq hti
  have h2 : r = Nat.repr j := eq_of_beq htj
  exact natRepr_inj (h1.symm.trans h2)

/-- Witness for C10 on a concrete resolved choose. -/
theorem claim_C10_witness :
    (choose ({ stdin := [] } : LoopState) ["A", "B"] { choice := some (.num 0) }).1 =
      .ok [true, false] ∧ (0 : Nat) = 0 := by
  constructor
  · decide
  · exact @claim_C10 { done := false, history := none, output := [], stdin := [] }
      ["A", "B"] { choice := some (.num 0) } [true, false] (by decide)
      0 0 (by decide) (by decide) (by decide) (by decide)

/-- C3 counterexample: `question` with the supplied value `0` (a
defined value the claim covers) does NOT resolve with the coerced value
`"0"`; because `0` is JS-falsy, the code falls through to `read()` and
resolves with the console input `"y"`, consuming the stream. -/
theorem claim_C3_counterexample :
    (question ({ stdin := [some "y\n"] } : LoopState) "Q" (some false) (some (.num 0))).1
      = .ok "y" ∧
    (question ({ stdin := [some "y\n"] } : LoopState) "Q" (some false) (some (.num 0))).2.stdin
      = [] ∧
    coerceChoice (.num 0) = "0" ∧
    ("y" : String) ≠ "0" := by
  exact ⟨by decide, by decide, by decide, by decide⟩

/-- C3 (amended): `question` resolves with the cleaned coerced value,
without reading, exactly when the supplied value is JS-truthy (nonzero
number or nonempty string); for `0`, the empty string, or no value at
all, it resolves with `read()` instead. -/
theorem claim_C3_amended (st : LoopState) (q : String) (inl : Option Bool) (v : JSValue) :
    (v.truthy = true →
      (question st q inl (some v)).1 = .ok (cleanInput (some (coerceChoice v))) ∧
      (question st q inl (some v)).2.stdin = st.stdin) ∧
    (v.truthy = false →
      question st q inl (some v) = question st q inl none) ∧
    question st q inl none = readOp (questionState st q inl) := by
  refine ⟨fun hv => ⟨?_, question_stdin_truthy hv⟩, fun hv => ?_, question_none st q inl⟩
  · rw [question_truthy hv]
  · rw [question_falsy hv, question_none]

/-- Witness for the amended C3 on a truthy supplied value. -/
theorem claim_C3_amended_witness :
    (question ({ stdin := [] } : LoopState) "Q" (some false) (some (.str "x"))).1 = .ok "x" ∧
    (question ({ stdin := [] } : LoopState) "Q" (some false) (some (.str "x"))).2.stdin = [] := by
  have h := (claim_C3_amended { done := false, history := none, output := [], stdin := [] }
    "Q" (some false) (.str "x")).1 (by decide)
  exact ⟨h.1.trans (by decide), h.2⟩

/-- C4 counterexample: `cleanInput` removes the FIRST line feed and
FIRST carriage return, not trailing ones; on the chunk "a\nb\n" the
code resolves "ab\n", while stripping trailing terminators (the spec's
words) would give "a\nb". -/
theorem claim_C4_counterexample :
    (readOp ({ stdin := [some "a\nb\n"] } : LoopState)).1 = .ok "ab\n" ∧
    stripTrailingTerminators "a\nb\n" = "a\nb" ∧
    ("ab\n" : String) ≠ "a\nb" := by
  exact ⟨by decide, by decide, by decide⟩

/-- C4 (amended): `read()` on a nonempty chunk resolves with the chunk
after deleting the first line feed and then the first carriage return;
for a chunk whose only terminator characters are a trailing "\r\n" —
such as "hello\r\n" — this coincides with stripping the trailing
terminators. -/
theorem claim_C4_amended (st : LoopState) (s : String) (rest : List (Option String))
    (t : String) (hs : st.stdin = some s :: rest) (hne : s ≠ "")
    (hn : '\n' ∉ t.data) (hr : '\r' ∉ t.data) :
    (readOp st).1 = .ok (cleanInput (some s)) ∧
    (readOp st).2.stdin = rest ∧
    cleanInput (some (t ++ "\r\n")) = t := by
  have hF : ¬ s.isEmpty = true := fun h' => hne ((String.isEmpty_iff s).mp h')
  refine ⟨?_, ?_, ?_⟩
  · obtain ⟨d, hh, o, si⟩ := st
    subst hs
    simp [readOp, hF]
  · obtain ⟨d, hh, o, si⟩ := st
    subst hs
    simp [readOp, hF]
  · show (⟨replaceFirst '\r' (replaceFirst '\n' (t ++ "\r\n").data)⟩ : String) = t
    rw [String.data_append]
    have h2 : ("\r\n" : String).data = ['\r', '\n'] := rfl
    rw [h2, replaceFirst_append_not_mem '\n' t.data ['\r', '\n'] hn]
    have h3 : replaceFirst '\n' ['\r', '\n'] = ['\r'] := rfl
    rw [h3, replaceFirst_append_not_mem '\r' t.data ['\r'] hr]
    have h4 : replaceFirst '\r' ['\r'] = ([] : List Char) := rfl
    rw [h4, List.append_nil]

/-- Witness for the amended C4: reading the line "hello\r\n" resolves
to "hello". -/
theorem claim_C4_amended_witness :
    (readOp ({ stdin := [some ("hello" ++ "\r\n")] } : LoopState)).1 = .ok "hello" ∧
    cleanInput (some ("hello" ++ "\r\n")) = "hello" := by
  have h := claim_C4_amended { done := false, history := none, output := [], stdin := [some ("hello" ++ "\r\n")] } ("hello" ++ "\r\n") [] "hello" rfl (by decide) (by decide) (by decide)
  exact ⟨h.1.trans (congrArg Except.ok h.2.2), h.2.2⟩

/-- C8 counterexample: a defined `preferences.choice` is not used
verbatim in its coerced string form — it is additionally passed through
`cleanInput`. With choice "0\n" the coerced string "0\n" matches no
index, so the claim predicts an all-false list, but the code cleans it
to "0" and selects position 0. -/
theorem claim_C8_counterexample :
    (choose ({ stdin := [] } : LoopState) ["A"] { choice := some (.str "0\n") }).1
      = .ok [true] ∧
    coerceChoice (.str "0\n") ≠ Nat.repr 0 := by
  exact ⟨by decide, by decide⟩

/-- C8 (amended): whenever `preferences.choice` is defined — including
`0` and the empty string — `choose` leaves standard input untouched and
answers with the CLEANED coerced choice (first LF and CR removed); only
an undefined choice triggers `read()`, which consumes one chunk. -/
theorem claim_C8_amended (st : LoopState) (options : List String) (p : Preferences) :
    (∀ c : JSValue, p.choice = some c →
      (choose st options p).2.stdin = st.stdin ∧
      (choose st options p).1 =
        .ok ((List.range options.length).map
          fun index => cleanInput (some (coerceChoice c)) == Nat.repr index)) ∧
    (p.choice = none →
      (choose st options p).2.stdin = st.stdin.tail) := by
  constructor
  · intro c hc
    refine ⟨choose_stdin_some hc, ?_⟩
    rw [choose_of_choice hc, finishChoose_fst]
  · intro hc
    exact choose_stdin_none hc

/-- Witness for the amended C8: auto-choice `0` bypasses the read (the
pending chunk stays) and selects position 0. -/
theorem claim_C8_witness :
    (choose ({ stdin := [some "1\n"] } : LoopState) ["A", "B"]
        { choice := some (.num 0) }).2.stdin = [some "1\n"] ∧
    (choose ({ stdin := [some "1\n"] } : LoopState) ["A", "B"]
        { choice := some (.num 0) }).1 = .ok [true, false] := by
  have h := (claim_C8_amended { done := false, history := none, output := [], stdin := [some "1\n"] } ["A", "B"] { choice := some (.num 0) }).1 (.num 0) rfl
  exact ⟨h.1, h.2.trans (by decide)⟩

/-- The selection list built by a resolved `choose`,
`options.map((_option, index) => result === String(index))`: it has one
entry per option, an entry is `true` exactly when the answer equals
that index rendered as a string, it is one-hot at `i` whenever the
answer is the rendering of an in-range index `i`, and it is all-false
when the answer matches no index. -/
theorem selection_get {r : String} {N : Nat} {l : List Bool}
    (hl : l = (List.range N).map fun index => r == Nat.repr index) :
    l.length = N ∧
    (∀ j : Nat, (hj : j < l.length) → (l.get ⟨j, hj⟩ = true ↔ r = Nat.repr j)) ∧
    (∀ i : Nat, i < N → r = Nat.repr i →
      ∀ j : Nat, (hj : j < l.length) → (l.get ⟨j, hj⟩ = true ↔ j = i)) ∧
    ((∀ j : Nat, j < N → r ≠ Nat.repr j) → l = List.replicate N false) := by
  subst hl
  refine ⟨by simp, ?_, ?_, ?_⟩
  · intro j hj
    rw [List.get_eq_getElem]
    simp only [List.getElem_map, List.getElem_range]
    exact beq_iff_eq
  · intro i hiN hri j hj
    rw [List.get_eq_getElem]
    simp only [List.getElem_map, List.getElem_range]
    subst hri
    rw [natRepr_beq]
    simp only [decide_eq_true_eq]
    exact eq_comm
  · intro hno
    refine List.eq_replicate_iff.mpr ⟨by simp, ?_⟩
    intro b hb
    simp only [List.mem_map, List.mem_range] at hb
    obtain ⟨j, hjN, hbj⟩ := hb
    rw [← hbj]
    exact beq_eq_false_iff_ne.mpr (hno j hjN)

/-- C1: any defined choice resolves to the selection list built from
its cleaned coerced string; and EVERY resolved `choose` — whether the
answer came from a numeric choice, a string choice, or the interactive
read — returns one boolean per option whose entries are `true` exactly
at the position whose stringified index equals the answer: one-hot at
`i` whenever the answer is an in-range index `i` rendered as a string,
and all-false when the answer matches no index. -/
theorem claim_C1 (st : LoopState) (options : List String) (p : Preferences) :
    (∀ c : JSValue, p.choice = some c →
      (choose st options p).1 =
        .ok ((List.range options.length).map
          fun index => cleanInput (some (coerceChoice c)) == Nat.repr index)) ∧
    (∀ l : List Bool, (choose st options p).1 = .ok l →
      l.length = options.length ∧
      ∃ r : String,
        (∀ c : JSValue, p.choice = some c → r = cleanInput (some (coerceChoice c))) ∧
        (p.choice = none → (readOp (renderChoose st options p)).1 = .ok r) ∧
        (∀ j : Nat, (hj : j < l.length) → (l.get ⟨j, hj⟩ = true ↔ r = Nat.repr j)) ∧
        (∀ i : Nat, i < options.length → r = Nat.repr i →
          ∀ j : Nat, (hj : j < l.length) → (l.get ⟨j, hj⟩ = true ↔ j = i)) ∧
        ((∀ j : Nat, j < options.length → r ≠ Nat.repr j) →
          l = List.replicate options.length false)) := by
  constructor
  · intro c hc
    rw [choose_of_choice hc, finishChoose_fst]
  · intro l h
    cases hc : p.choice with
    | some c =>
        have hfst : (choose st options p).1 =
            .ok ((List.range options.length).map
              fun index => cleanInput (some (coerceChoice c)) == Nat.repr index) := by
          rw [choose_of_choice hc, finishChoose_fst]
        have hl : l = (List.range options.length).map
            fun index => cleanInput (some (coerceChoice c)) == Nat.repr index :=
          Except.ok.inj (h.symm.trans hfst)
        obtain ⟨hlen, hget, hhot, hno⟩ := selection_get hl
        refine ⟨hlen, cleanInput (some (coerceChoice c)), ?_, ?_, hget, hhot, hno⟩
        · intro c' hc'
          rw [Option.some.inj hc']
        · intro hn
          exact absurd hn (by simp)
    | none =>
        unfold choose at h
        rw [hc] at h
        rcases hr : readOp (renderChoose st options p) with ⟨res, st1⟩
        rw [hr] at h
        cases res with
        | ok r =>
            have h2 : (finishChoose st1 options p r).1 = Except.ok l := h
            rw [finishChoose_fst] at h2
            have hl : l = (List.range options.length).map
                fun index => r == Nat.repr index := (Except.ok.inj h2).symm
            obtain ⟨hlen, hget, hhot, hno⟩ := selection_get hl
            refine ⟨hlen, r, ?_, ?_, hget, hhot, hno⟩
            · intro c' hc'
              exact absurd hc' (by simp)
            · intro _
              rfl
        | error e =>
            have h2 : (Except.error e : Except Unit (List Bool)) = Except.ok l := h
            exact absurd h2 (by simp)

/-- Witness for C1: the interactive-read path (console answer "1\n")
and a string-form choice "1" both select exactly position 1 of three,
via the theorem applied at the read-path instance. -/
theorem claim_C1_witness :
    (choose ({ stdin := [some "1\n"] } : LoopState) ["A", "B", "C"] {}).1
      = .ok [false, true, false] ∧
    ([false, true, false] : List Bool).length = (["A", "B", "C"] : List String).length ∧
    (choose ({ stdin := [] } : LoopState) ["A", "B", "C"] { choice := some (.str "1") }).1
      = .ok [false, true, false] := by
  refine ⟨by decide, ?_, by decide⟩
  exact ((claim_C1 { done := false, history := none, output := [], stdin := [some "1\n"] } ["A", "B", "C"] {}).2 [false, true, false] (by decide)).1

/-- C2: starting from `done = false`, a numeric auto-choice equal to
the last option's index with `lastOptionClose = true` sets `done`; any
other in-range index leaves `done` false whatever the flag. -/
theorem claim_C2 (st : LoopState) (options : List String) (p : Preferences)
    (hd : st.done = false) (hne : options ≠ []) :
    (p.choice = some (.num (Int.ofNat (options.length - 1))) →
      p.lastOptionClose = some true →
      (choose st options p).2.done = true) ∧
    (∀ i : Nat, i < options.length → i ≠ options.length - 1 →
      p.choice = some (.num (Int.ofNat i)) →
      (choose st options p).2.done = false) := by
  constructor
  · intro hp hloc
    rw [choose_of_choice hp, finishChoose_done]
    have hres : cleanInput (some (coerceChoice (.num (Int.ofNat (options.length - 1)))))
        = Nat.repr (options.length - 1) := by
      show cleanInput (some (Int.repr (Int.ofNat (options.length - 1)))) = _
      rw [intRepr_ofNat]
      exact cleanInput_natRepr _
    rw [hres, intRepr_pred_length hne, hloc]
    simp
  · intro i hiN hine hp
    rw [choose_of_choice hp, finishChoose_done]
    have hres : cleanInput (some (coerceChoice (.num (Int.ofNat i)))) = Nat.repr i := by
      show cleanInput (some (Int.repr (Int.ofNat i))) = _
      rw [intRepr_ofNat]
      exact cleanInput_natRepr _
    rw [hres, intRepr_pred_length hne,
      beq_eq_false_iff_ne.mpr (fun he => hine (natRepr_inj he))]
    simp only [Bool.and_false, Bool.false_eq_true, if_false]
    rw [(renderChoose_frame st options p).1]
    exact hd

/-- Witness for C2 on a two-option menu. -/
theorem claim_C2_witness :
    (choose ({ stdin := [] } : LoopState) ["A", "B"] { choice := some (.num 1), lastOptionClose := some true }).2.done = true ∧
    (choose ({ stdin := [] } : LoopState) ["A", "B"] { choice := some (.num 0), lastOptionClose := some true }).2.done = false := by
  constructor
  · exact (claim_C2 { done := false, history := none, output := [], stdin := [] } ["A", "B"] { choice := some (.num 1), lastOptionClose := some true } rfl (by decide)).1 rfl rfl
  · exact (claim_C2 { done := false, history := none, output := [], stdin := [] } ["A", "B"] { choice := some (.num 0), lastOptionClose := some true } rfl (by decide)).2 0 (by decide) (by decide) rfl

/-- C5: `repeat` replays the last recorded prompt — after a resolved
`choose` it re-invokes `choose` with the same option list and
`lastOptionClose` flag; after a `question` it re-invokes `question`
with the same text and newline flag; with an empty history it returns
nothing and leaves the state untouched; and replaying a choose with no
override value performs an interactive read (consumes one chunk). -/
theorem claim_C5 (st : LoopState) (v : Option JSValue) :
    (∀ options p (l : List Bool), (choose st options p).1 = .ok l →
      repeatOp (choose st options p).2 v =
        (some (.inl (choose (choose st options p).2 options
            { lastOptionClose := some (p.lastOptionClose.getD false), choice := v }).1),
          (choose (choose st options p).2 options
            { lastOptionClose := some (p.lastOptionClose.getD false), choice := v }).2)) ∧
    (∀ q inl w, repeatOp (question st q inl w).2 v =
        (some (.inr (question (question st q inl w).2 q (some (inl.getD true)) v).1),
          (question (question st q inl w).2 q (some (inl.getD true)) v).2)) ∧
    (st.history = none → repeatOp st v = (none, st)) ∧
    (∀ options p (l : List Bool), (choose st options p).1 = .ok l →
      (repeatOp (choose st options p).2 none).2.stdin
        = ((choose st options p).2).stdin.tail) := by
  refine ⟨?_, ?_, ?_, ?_⟩
  · intro options p l h
    have hh := choose_history_of_ok h
    unfold repeatOp
    rw [hh]
  · intro q inl w
    have hh := question_history st q inl w
    unfold repeatOp
    rw [hh]
    rfl
  · intro h
    unfold repeatOp
    rw [h]
  · intro options p l h
    have hh := choose_history_of_ok h
    unfold repeatOp
    rw [hh]
    show (choose (choose st options p).2 options
        { lastOptionClose := some (p.lastOptionClose.getD false), choice := none }).2.stdin
      = ((choose st options p).2).stdin.tail
    exact choose_stdin_none rfl

/-- Witness for C5: a replay after a concrete auto-answered choose
reads interactively and consumes the pending chunk. -/
theorem claim_C5_witness :
    (repeatOp (choose ({ stdin := [some "0\n"] } : LoopState) ["A", "B"] { choice := some (.num 1) }).2 none).2.stdin = [] := by
  have h := (claim_C5 { done := false, history := none, output := [], stdin := [some "0\n"] } none).2.2.2 ["A", "B"] { choice := some (.num 1) } [false, true] (by decide)
  exact h.trans (by decide)

/-- Witness for C6: a pending nonempty chunk resolves cleanly. -/
theorem claim_C6_witness :
    (readOp ({ stdin := [some "hi\n"] } : LoopState)).1 = .ok "hi" := by
  have h := (claim_C6 { done := false, history := none, output := [], stdin := [some "hi\n"] }).2 "hi\n" [] rfl (by decide)
  exact h.trans (by decide)

end InputDeno

